import Mathlib

/-!
Shallow embedding of the circuit simulator core (`src/bipoles.rs`).

Numbers: the Rust code computes over `f64`; the embedding models them as
exact rationals.  The transcendental functions `f64::exp` and `f64::sin`
and the constant `PI` are supplied by an environment parameter `NumEnv`,
so every statement below holds for an arbitrary interpretation of them
(in particular for the real ones); witnesses instantiate them with
concrete computable functions.

The external dense linear solver (the `mathru` crate, interface only in
the source) is a parameter `LinSolver`: given the number of unknowns, the
matrix and the right-hand side it returns `some x` or `none` ("cannot
factor A").  Rust panics (`unwrap` on a failed result / absent key) are
modelled by the `Panic` error of an `Except` monad.

`HashMap<String, Bipole>` is modelled as an association list with
`HashMap::insert` replace-or-append semantics; `HashSet` as a list with
insert-if-absent.  All iteration of the source over these containers is
order-insensitive under the source's own preconditions, so the list
order is a faithful deterministic refinement.
-/

abbrev Mat : Type := Nat → Nat → ℚ

abbrev Vec : Type := Nat → ℚ

def zeroM : Mat := fun _ _ => 0

def zeroV : Vec := fun _ => 0

/-- Interpretation of the `f64` transcendental functions used by the source. -/
structure NumEnv where
  rexp : ℚ → ℚ
  rsin : ℚ → ℚ
  rpi : ℚ

/-- External dense linear solver (mathru `Solve`): number of unknowns,
matrix, right-hand side; `none` when the matrix cannot be factored. -/
abbrev LinSolver : Type := Nat → Mat → Vec → Option Vec

/-- A Rust panic (`unwrap` of `None`/`Err`). -/
inductive Panic where
  | unwrapNone
deriving DecidableEq, Repr

/-- `enum Model` of `bipoles.rs`. -/
inductive Model where
  | conduttanceCurrentSource (conduttance : ℚ) (current : ℚ)
  | voltageSource (value : ℚ)
deriving DecidableEq, Repr

/-- The closed sum of the `BipoleBehaviour` implementations of `bipoles.rs`,
each constructor carrying that struct's fields in source order. -/
inductive Behaviour where
  | resistor (resistance : ℚ)
  | currentSource (value : ℚ)
  | voltageSource (value : ℚ)
  | sinusoidalVoltageSource (value : ℚ) (frequencyHz : ℚ)
  | capacitor (capacitance : ℚ) (currentVoltage : ℚ)
  | inductor (induttance : ℚ) (currentI : ℚ)
  | diode (currentS : ℚ) (voltageVt : ℚ) (currentI : ℚ) (currentV : ℚ)
deriving DecidableEq, Repr

namespace Behaviour

/-- `linear_companion(&self, timestep_sec, current_time_sec)` of each impl. -/
def linearCompanion (env : NumEnv) (b : Behaviour) (timestepSec : ℚ)
    (currentTimeSec : ℚ) : Model :=
  match b with
  | resistor r => .conduttanceCurrentSource (1 / r) 0
  | currentSource v => .conduttanceCurrentSource 0 v
  | voltageSource v => .voltageSource v
  | sinusoidalVoltageSource v f =>
      .voltageSource (v * env.rsin (f * 2 * env.rpi * currentTimeSec))
  | capacitor c cv =>
      .conduttanceCurrentSource (c / timestepSec) (-cv * c / timestepSec)
  | inductor l ci => .conduttanceCurrentSource (timestepSec / l) (-ci)
  | diode s vt i v =>
      let equivalentConduttance := s / vt * env.rexp (v / vt)
      .conduttanceCurrentSource equivalentConduttance
        (i - equivalentConduttance * v)

/-- `is_dynamic`: overridden to `true` by `Capacitor` and `Inductor`. -/
def isDynamic : Behaviour → Bool
  | capacitor _ _ => true
  | inductor _ _ => true
  | _ => false

/-- `is_nonlinear`: overridden to `true` by `Diode`. -/
def isNonlinear : Behaviour → Bool
  | diode _ _ _ _ => true
  | _ => false

/-- `update_state(&mut self, anode_tension, catode_tension, timestep_sec)`. -/
def updateState (b : Behaviour) (anodeTension : ℚ) (catodeTension : ℚ)
    (timestepSec : ℚ) : Behaviour :=
  match b with
  | capacitor c _ => capacitor c (anodeTension - catodeTension)
  | inductor l ci =>
      let equivalentConduttance := timestepSec / l
      inductor l ((anodeTension - catodeTension) * equivalentConduttance + ci)
  | other => other

/-- `update_operating_point(&mut self, anode_tension, catode_tension, current)`
(the `current` argument is ignored by every impl, as in the source). -/
def updateOperatingPoint (env : NumEnv) (b : Behaviour) (anodeTension : ℚ)
    (catodeTension : ℚ) (_current : ℚ) : Behaviour :=
  match b with
  | diode s vt _ _ =>
      let voltage := anodeTension - catodeTension
      diode s vt (s * (env.rexp (voltage / vt) - 1)) voltage
  | other => other

/-- `reset_operating_point(&mut self)`: the diode warm start. -/
def resetOperatingPoint : Behaviour → Behaviour
  | diode s vt _ _ => diode s vt 1.08 0.9
  | other => other

end Behaviour

/-- `struct Bipole` of `bipoles.rs`. -/
structure Bipole where
  anodeId : Nat
  catodeId : Nat
  behaviour : Behaviour
deriving DecidableEq, Repr

/-- `struct Circuit` of `bipoles.rs`; `HashMap`/`HashSet` as lists. -/
structure Circuit where
  bipoles : List (String × Bipole)
  dynamicBipoles : List String
  nonlinearBipoles : List String
  groundId : Nat
  nodes : List Nat
  voltageBipoles : List String
deriving DecidableEq, Repr

/-- `Circuit::new(ground_id)`. -/
def Circuit.new (groundId : Nat) : Circuit :=
  { bipoles := [], dynamicBipoles := [], nonlinearBipoles := []
    groundId := groundId, nodes := [], voltageBipoles := [] }

/-- `HashSet::insert` on a string set modelled as a duplicate-free list. -/
def insertName (s : List String) (n : String) : List String :=
  if n ∈ s then s else s ++ [n]

/-- `HashSet::insert` on a node set modelled as a duplicate-free list. -/
def insertNode (s : List Nat) (n : Nat) : List Nat :=
  if n ∈ s then s else s ++ [n]

/-- `HashMap::insert`: replace the entry if the key is present, else append. -/
def insertBipole : List (String × Bipole) → String → Bipole →
    List (String × Bipole)
  | [], n, bp => [(n, bp)]
  | (m, old) :: rest, n, bp =>
      if m = n then (n, bp) :: rest else (m, old) :: insertBipole rest n bp

/-- Lookup in the bipole association list. -/
def findAssoc : List (String × Bipole) → String → Option Bipole
  | [], _ => none
  | (m, bp) :: rest, name => if m = name then some bp else findAssoc rest name

/-- `HashMap::get`. -/
def findBipole (c : Circuit) (name : String) : Option Bipole :=
  findAssoc c.bipoles name

/-- `Circuit::add_bipole`: probe the companion at `(1.0, 1.0)` to detect a
voltage-defined element, record the behaviour flags, insert the terminals,
store the bipole.  There is no duplicate-name check in the source. -/
def Circuit.addBipole (env : NumEnv) (c : Circuit) (behaviour : Behaviour)
    (anodeId : Nat) (catodeId : Nat) (name : String) : Circuit :=
  let voltageBipoles :=
    match behaviour.linearCompanion env 1 1 with
    | .voltageSource _ => insertName c.voltageBipoles name
    | _ => c.voltageBipoles
  { bipoles := insertBipole c.bipoles name ⟨anodeId, catodeId, behaviour⟩
    dynamicBipoles :=
      if behaviour.isDynamic then insertName c.dynamicBipoles name
      else c.dynamicBipoles
    nonlinearBipoles :=
      if behaviour.isNonlinear then insertName c.nonlinearBipoles name
      else c.nonlinearBipoles
    groundId := c.groundId
    nodes := insertNode (insertNode c.nodes anodeId) catodeId
    voltageBipoles := voltageBipoles }

/-- Lookup in the `voltage_bipole_to_current_idx` map. -/
def lookupIdx : List (String × Nat) → String → Option Nat
  | [], _ => none
  | (m, k) :: rest, name => if m = name then some k else lookupIdx rest name

/-- The stamp of one `ConduttanceCurrentSource{g, i}` companion, in the
source's update order (current into b, then the four matrix entries). -/
def stampCC (A : Mat) (b : Vec) (a c : Nat) (g i : ℚ) : Mat × Vec :=
  let b1 : Vec := fun j => if j = a then b a - i else b j
  let b2 : Vec := fun j => if j = c then b1 c + i else b1 j
  let A1 : Mat := fun x y => if x = a ∧ y = c then A a c - g else A x y
  let A2 : Mat := fun x y => if x = c ∧ y = a then A1 c a - g else A1 x y
  let A3 : Mat := fun x y => if x = a ∧ y = a then A2 a a + g else A2 x y
  let A4 : Mat := fun x y => if x = c ∧ y = c then A3 c c + g else A3 x y
  (A4, b2)

/-- The stamp of one `VoltageSource(v)` companion with auxiliary index `k`:
four `+=`/`-=` unit entries and the assignment `b[k] = v`. -/
def stampV (A : Mat) (b : Vec) (a c k : Nat) (v : ℚ) : Mat × Vec :=
  let A1 : Mat := fun x y => if x = a ∧ y = k then A a k + 1 else A x y
  let A2 : Mat := fun x y => if x = c ∧ y = k then A1 c k - 1 else A1 x y
  let A3 : Mat := fun x y => if x = k ∧ y = a then A2 k a + 1 else A2 x y
  let A4 : Mat := fun x y => if x = k ∧ y = c then A3 k c - 1 else A3 x y
  let b1 : Vec := fun j => if j = k then v else b j
  (A4, b1)

/-- One element of the loop body of `Circuit::fill`: dispatch on the
companion; a voltage companion whose name is missing from the index map
panics (`unwrap`). -/
def stampBipole (env : NumEnv) (vidx : List (String × Nat)) (timestepSec : ℚ)
    (time : ℚ) (name : String) (bp : Bipole) (Ab : Mat × Vec) :
    Except Panic (Mat × Vec) :=
  match bp.behaviour.linearCompanion env timestepSec time with
  | .voltageSource value =>
      match lookupIdx vidx name with
      | none => .error .unwrapNone
      | some idx => .ok (stampV Ab.1 Ab.2 bp.anodeId bp.catodeId idx value)
  | .conduttanceCurrentSource g i =>
      .ok (stampCC Ab.1 Ab.2 bp.anodeId bp.catodeId g i)

/-- `Circuit::fill`: stamp every bipole into the (already cleared) system. -/
def fill (env : NumEnv) (vidx : List (String × Nat)) (timestepSec : ℚ)
    (time : ℚ) : List (String × Bipole) → Mat × Vec → Except Panic (Mat × Vec)
  | [], Ab => .ok Ab
  | (name, bp) :: rest, Ab =>
      match stampBipole env vidx timestepSec time name bp Ab with
      | .error e => .error e
      | .ok Ab' => fill env vidx timestepSec time rest Ab'

/-- `HashMap::get_mut` + in-place mutation of one bipole; `none` when the
name is absent (the source would `unwrap`-panic). -/
def modifyAssoc (f : Bipole → Bipole) (name : String) :
    List (String × Bipole) → Option (List (String × Bipole))
  | [] => none
  | (m, bp) :: rest =>
      if m = name then some ((m, f bp) :: rest)
      else match modifyAssoc f name rest with
        | none => none
        | some rest' => some ((m, bp) :: rest')

/-- Apply `f` to the named bipole of the circuit, panicking when absent. -/
def modifyBipole (c : Circuit) (name : String) (f : Bipole → Bipole) :
    Except Panic Circuit :=
  match modifyAssoc f name c.bipoles with
  | none => .error .unwrapNone
  | some bs => .ok { c with bipoles := bs }

/-- Iterate `modifyBipole` over a list of names (the source's loops over
`nonlinear_bipoles` / `dynamic_bipoles`); `f` sees each bipole's own
terminals and behaviour. -/
def modifyAll (f : Bipole → Bipole) : Circuit → List String →
    Except Panic Circuit
  | c, [] => .ok c
  | c, name :: rest =>
      match modifyBipole c name f with
      | .error e => .error e
      | .ok c' => modifyAll f c' rest

/-- `Circuit::update_nonlinear_op`: `update_operating_point(sol[a], sol[c], 0.0)`
on every nonlinear bipole. -/
def updateNonlinearOp (env : NumEnv) (c : Circuit) (sol : Vec) :
    Except Panic Circuit :=
  modifyAll
    (fun bp =>
      { bp with behaviour :=
          (bp.behaviour.updateOperatingPoint env (sol bp.anodeId)
            (sol bp.catodeId) 0) })
    c c.nonlinearBipoles

/-- `Circuit::reset_nonlinear_op`. -/
def resetNonlinearOp (c : Circuit) : Except Panic Circuit :=
  modifyAll (fun bp => { bp with behaviour := bp.behaviour.resetOperatingPoint })
    c c.nonlinearBipoles

/-- The state threaded through the Newton loop: circuit, matrix, sources,
current solution vector. -/
abbrev IterState : Type := Circuit × Mat × Vec × Vec

/-- One body of the `for _ in 0..n_iterations` loop of
`Circuit::solve_nonlinear`: clear, fill, `solve(...).unwrap()`, update the
nonlinear operating points. -/
def iterOnce (env : NumEnv) (lsolve : LinSolver) (vidx : List (String × Nat))
    (unknowns : Nat) (timestepSec : ℚ) (time : ℚ) (st : IterState) :
    Except Panic IterState :=
  match fill env vidx timestepSec time st.1.bipoles (zeroM, zeroV) with
  | .error e => .error e
  | .ok (A1, b1) =>
      match lsolve unknowns A1 b1 with
      | none => .error .unwrapNone
      | some sol =>
          match updateNonlinearOp env st.1 sol with
          | .error e => .error e
          | .ok c' => .ok (c', A1, b1, sol)

/-- `n` iterations of the Newton loop. -/
def iterN (env : NumEnv) (lsolve : LinSolver) (vidx : List (String × Nat))
    (unknowns : Nat) (timestepSec : ℚ) (time : ℚ) :
    Nat → IterState → Except Panic IterState
  | 0, st => .ok st
  | n + 1, st =>
      match iterOnce env lsolve vidx unknowns timestepSec time st with
      | .error e => .error e
      | .ok st' => iterN env lsolve vidx unknowns timestepSec time n st'

/-- `Circuit::solve_nonlinear`: reset the operating points once, start from
the zero solution vector, run the loop `n_iterations` times, return the
last state (whose `sol` component the source returns). -/
def solveNonlinear (env : NumEnv) (lsolve : LinSolver)
    (vidx : List (String × Nat)) (unknowns : Nat) (c : Circuit)
    (timestepSec : ℚ) (time : ℚ) (A : Mat) (b : Vec) (nIterations : Nat) :
    Except Panic IterState :=
  match resetNonlinearOp c with
  | .error e => .error e
  | .ok c0 => iterN env lsolve vidx unknowns timestepSec time nIterations
      (c0, A, b, zeroV)

/-- `struct SimulationOutput`. -/
structure SimulationOutput where
  currents : List (String × List ℚ)
  nodeVoltages : List (Nat × List ℚ)
deriving DecidableEq, Repr

/-- The current-recording loop of `Circuit::simulate`: for a voltage-defined
element take `sol[idx]`, otherwise re-query the companion and take
`g·(sol[a] − sol[c]) + i` (a voltage companion outside the index map is
left untouched, as the source's `if let` does). -/
def recordCurrents (env : NumEnv) (vidx : List (String × Nat)) (c : Circuit)
    (timestepSec : ℚ) (time : ℚ) (sol : Vec) (step : Nat) :
    List (String × List ℚ) → Except Panic (List (String × List ℚ))
  | [] => .ok []
  | (name, l) :: rest =>
      let l' : Except Panic (List ℚ) :=
        match lookupIdx vidx name with
        | some idx => .ok (l.set step (sol idx))
        | none =>
            match findBipole c name with
            | none => .error .unwrapNone
            | some bp =>
                match bp.behaviour.linearCompanion env timestepSec time with
                | .conduttanceCurrentSource g i =>
                    .ok (l.set step
                      (g * (sol bp.anodeId - sol bp.catodeId) + i))
                | .voltageSource _ => .ok l
      match l' with
      | .error e => .error e
      | .ok l' =>
          match recordCurrents env vidx c timestepSec time sol step rest with
          | .error e => .error e
          | .ok rest' => .ok ((name, l') :: rest')

/-- The voltage-recording loop: `sol[node] − sol[ground]` at this step. -/
def recordVoltages (groundId : Nat) (sol : Vec) (step : Nat)
    (entries : List (Nat × List ℚ)) : List (Nat × List ℚ) :=
  entries.map (fun p => (p.1, p.2.set step (sol p.1 - sol groundId)))

/-- The dynamic-state loop: `update_state(sol[a], sol[c], Δt)` on every
dynamic bipole. -/
def updateDynamics (c : Circuit) (sol : Vec) (timestepSec : ℚ) :
    Except Panic Circuit :=
  modifyAll
    (fun bp =>
      { bp with behaviour :=
          (bp.behaviour.updateState (sol bp.anodeId) (sol bp.catodeId)
            timestepSec) })
    c c.dynamicBipoles

/-- The per-step iteration count of `Circuit::simulate`. -/
def simNumIterations (c : Circuit) : Nat :=
  if c.nonlinearBipoles.length > 0 then 30 else 1

/-- The state threaded through the step loop of `Circuit::simulate`. -/
abbrev SimState : Type := Circuit × Mat × Vec × SimulationOutput

/-- One body of the `for step in 0..n_steps` loop of `Circuit::simulate`:
Newton-solve, record currents, record voltages, update dynamic state,
clear the system. -/
def simStep (env : NumEnv) (lsolve : LinSolver) (vidx : List (String × Nat))
    (unknowns : Nat) (timestepSec : ℚ) (st : SimState) (step : Nat) :
    Except Panic SimState :=
  match solveNonlinear env lsolve vidx unknowns st.1 timestepSec
      ((step : ℚ) * timestepSec) st.2.1 st.2.2.1 (simNumIterations st.1) with
  | .error e => .error e
  | .ok (c1, _, _, sol) =>
      match recordCurrents env vidx c1 timestepSec ((step : ℚ) * timestepSec)
          sol step st.2.2.2.currents with
      | .error e => .error e
      | .ok currents' =>
          match updateDynamics c1 sol timestepSec with
          | .error e => .error e
          | .ok c2 =>
              .ok (c2, zeroM, zeroV,
                ⟨currents',
                  recordVoltages c1.groundId sol step st.2.2.2.nodeVoltages⟩)

/-- Run the step loop for `k` remaining steps, the next step index being
`step`. -/
def simLoop (env : NumEnv) (lsolve : LinSolver) (vidx : List (String × Nat))
    (unknowns : Nat) (timestepSec : ℚ) : Nat → Nat → SimState →
    Except Panic SimState
  | 0, _, st => .ok st
  | k + 1, step, st =>
      match simStep env lsolve vidx unknowns timestepSec st step with
      | .error e => .error e
      | .ok st' => simLoop env lsolve vidx unknowns timestepSec k (step + 1) st'

/-- `(simulationtime_sec / timestep_sec) as usize`: truncation toward zero,
saturating at 0 for negative quotients — `Int.toNat ∘ Int.floor` agrees
with it on every quotient. -/
def nSteps (simulationtimeSec : ℚ) (timestepSec : ℚ) : Nat :=
  Int.toNat ⌊simulationtimeSec / timestepSec⌋

/-- The `voltage_bipole_to_current_idx` map: the voltage bipoles in
enumeration order, indexed from `number_of_nodes`. -/
def buildVidx (base : Nat) : List String → Nat → List (String × Nat)
  | [], _ => []
  | name :: rest, i => (name, base + i) :: buildVidx base rest (i + 1)

/-- The zero-filled output the source preallocates. -/
def initOutput (c : Circuit) (n : Nat) : SimulationOutput :=
  { currents := c.bipoles.map (fun p => (p.1, List.replicate n 0))
    nodeVoltages := c.nodes.map (fun nd => (nd, List.replicate n 0)) }

/-- The `voltage_bipole_to_current_idx` map of `Circuit::simulate`. -/
def mkVidx (c : Circuit) : List (String × Nat) :=
  buildVidx c.nodes.length c.voltageBipoles 0

/-- The number of unknowns of `Circuit::simulate`: nodes plus
voltage-defined branches. -/
def mkUnknowns (c : Circuit) : Nat :=
  c.nodes.length + c.voltageBipoles.length

/-- `Circuit::simulate`. -/
def Circuit.simulate (env : NumEnv) (lsolve : LinSolver) (c : Circuit)
    (simulationtimeSec : ℚ) (timestepSec : ℚ) :
    Except Panic (Circuit × SimulationOutput) :=
  match simLoop env lsolve (mkVidx c) (mkUnknowns c) timestepSec
      (nSteps simulationtimeSec timestepSec) 0
      (c, zeroM, zeroV,
        initOutput c (nSteps simulationtimeSec timestepSec)) with
  | .error e => .error e
  | .ok (c', _, _, out) => .ok (c', out)

/-- Lookup of a node's voltage sequence in the output. -/
def findVoltSeq : List (Nat × List ℚ) → Nat → Option (List ℚ)
  | [], _ => none
  | (m, l) :: rest, n => if m = n then some l else findVoltSeq rest n

/-- Lookup of an element's current sequence in the output. -/
def findCurrSeq : List (String × List ℚ) → String → Option (List ℚ)
  | [], _ => none
  | (m, l) :: rest, n => if m = n then some l else findCurrSeq rest n

/-- The structural part of a behaviour: its constructor and constant
parameters, with the mutable per-element state erased. -/
inductive BShape where
  | resistor (resistance : ℚ)
  | currentSource (value : ℚ)
  | voltageSource (value : ℚ)
  | sinusoidalVoltageSource (value : ℚ) (frequencyHz : ℚ)
  | capacitor (capacitance : ℚ)
  | inductor (induttance : ℚ)
  | diode (currentS : ℚ) (voltageVt : ℚ)
deriving DecidableEq, Repr

/-- Erase the mutable state of a behaviour. -/
def Behaviour.shapeOf : Behaviour → BShape
  | .resistor r => .resistor r
  | .currentSource v => .currentSource v
  | .voltageSource v => .voltageSource v
  | .sinusoidalVoltageSource v f => .sinusoidalVoltageSource v f
  | .capacitor c _ => .capacitor c
  | .inductor l _ => .inductor l
  | .diode s vt _ _ => .diode s vt

/-- The structural part of a stored bipole: terminals and behaviour shape. -/
def bipoleShape (bp : Bipole) : Nat × Nat × BShape :=
  (bp.anodeId, bp.catodeId, bp.behaviour.shapeOf)

/-- Everything about a circuit except the per-element mutable state. -/
structure CShape where
  entries : List (String × Nat × Nat × BShape)
  dyn : List String
  nonlinear : List String
  gid : Nat
  nds : List Nat
  vb : List String
deriving DecidableEq, Repr

/-- The structure of a circuit: element names with terminals and behaviour
shapes, the three flag subsets, the ground id and the node set. -/
def structureOf (c : Circuit) : CShape :=
  { entries := c.bipoles.map (fun p => (p.1, bipoleShape p.2))
    dyn := c.dynamicBipoles
    nonlinear := c.nonlinearBipoles
    gid := c.groundId
    nds := c.nodes
    vb := c.voltageBipoles }

/-! ### Concrete instantiations used by witnesses and counterexamples -/

/-- A concrete computable interpretation of the transcendental functions
(the claims below never depend on which interpretation is chosen). -/
def envQ : NumEnv := ⟨fun x => x + 2, fun _ => 0, 0⟩

/-- A solver that always succeeds with the zero vector. -/
def lsOk : LinSolver := fun _ _ _ => some (fun _ => 0)

/-- A solver that cannot factor any matrix. -/
def lsNone : LinSolver := fun _ _ _ => none

/-- A circuit with one 1 Ω resistor between nodes 1 and 0. -/
def cRes : Circuit := (Circuit.new 0).addBipole envQ (.resistor 1) 1 0 "R"

/-- A circuit with one 1 A current source between nodes 0 and 1: every
conductance stamp is `g = 0`, so the assembled matrix is identically
zero and no solver can factor it. -/
def cCur : Circuit := (Circuit.new 0).addBipole envQ (.currentSource 1) 0 1 "I"

/-- A circuit with one diode, operating point `(v*, i*) = (5, 7)`. -/
def cDio : Circuit := (Circuit.new 0).addBipole envQ (.diode 1 1 7 5) 1 0 "D"

/-- A circuit with one capacitor, `C = 1`, last voltage 3. -/
def cCap : Circuit := (Circuit.new 0).addBipole envQ (.capacitor 1 3) 1 0 "C"

/-! ### Helper lemmas -/

theorem findAssoc_insertBipole_self (l : List (String × Bipole)) (name : String)
    (bp : Bipole) : findAssoc (insertBipole l name bp) name = some bp := by
  induction l with
  | nil => simp [insertBipole, findAssoc]
  | cons p rest ih =>
      obtain ⟨m, old⟩ := p
      by_cases h : m = name
      · simp [insertBipole, h, findAssoc]
      · simp [insertBipole, h, findAssoc, ih]

theorem modifyAssoc_find_self (f : Bipole → Bipole) (name : String) :
    ∀ (l l' : List (String × Bipole)), modifyAssoc f name l = some l' →
      ∀ bp, findAssoc l name = some bp → findAssoc l' name = some (f bp)
  | [], _, h => by simp [modifyAssoc] at h
  | (m, b0) :: rest, l', h => by
      intro bp hf
      by_cases hm : m = name
      · subst hm
        simp only [modifyAssoc, if_pos rfl] at h
        simp only [findAssoc, if_pos rfl] at hf
        cases h
        cases hf
        simp [findAssoc]
      · simp only [modifyAssoc, if_neg hm] at h
        simp only [findAssoc, if_neg hm] at hf
        cases hrec : modifyAssoc f name rest with
        | none => rw [hrec] at h; cases h
        | some rest' =>
            rw [hrec] at h
            cases h
            simp only [findAssoc, if_neg hm]
            exact modifyAssoc_find_self f name rest rest' hrec bp hf

theorem modifyAssoc_find_other (f : Bipole → Bipole) (name : String) :
    ∀ (l l' : List (String × Bipole)), modifyAssoc f name l = some l' →
      ∀ nm, nm ≠ name → findAssoc l' nm = findAssoc l nm
  | [], _, h => by simp [modifyAssoc] at h
  | (m, b0) :: rest, l', h => by
      intro nm hne
      by_cases hm : m = name
      · subst hm
        simp only [modifyAssoc, if_pos rfl] at h
        cases h
        have hmn : m ≠ nm := fun hx => hne hx.symm
        simp [findAssoc, hmn]
      · simp only [modifyAssoc, if_neg hm] at h
        cases hrec : modifyAssoc f name rest with
        | none => rw [hrec] at h; cases h
        | some rest' =>
            rw [hrec] at h
            cases h
            simp only [findAssoc]
            by_cases hm2 : m = nm
            · simp [hm2]
            · simp only [if_neg hm2]
              exact modifyAssoc_find_other f name rest rest' hrec nm hne

theorem modifyAssoc_map_shape (f : Bipole → Bipole)
    (hsp : ∀ bp, bipoleShape (f bp) = bipoleShape bp) (name : String) :
    ∀ (l l' : List (String × Bipole)), modifyAssoc f name l = some l' →
      l'.map (fun p => (p.1, bipoleShape p.2)) =
        l.map (fun p => (p.1, bipoleShape p.2))
  | [], _, h => by simp [modifyAssoc] at h
  | (m, b0) :: rest, l', h => by
      by_cases hm : m = name
      · subst hm
        simp only [modifyAssoc, if_pos rfl] at h
        cases h
        simp [hsp]
      · simp only [modifyAssoc, if_neg hm] at h
        cases hrec : modifyAssoc f name rest with
        | none => rw [hrec] at h; cases h
        | some rest' =>
            rw [hrec] at h
            cases h
            simp [modifyAssoc_map_shape f hsp name rest rest' hrec]

theorem modifyAll_structure (f : Bipole → Bipole)
    (hsp : ∀ bp, bipoleShape (f bp) = bipoleShape bp) :
    ∀ (names : List String) (c c' : Circuit), modifyAll f c names = .ok c' →
      structureOf c' = structureOf c
  | [], c, c', h => by
      simp only [modifyAll] at h
      cases h
      rfl
  | name :: rest, c, c', h => by
      simp only [modifyAll] at h
      cases hm : modifyBipole c name f with
      | error e => rw [hm] at h; cases h
      | ok c1 =>
          rw [hm] at h
          have h1 : structureOf c1 = structureOf c := by
            unfold modifyBipole at hm
            cases hma : modifyAssoc f name c.bipoles with
            | none => rw [hma] at hm; cases hm
            | some bs =>
                rw [hma] at hm
                cases hm
                simp [structureOf, modifyAssoc_map_shape f hsp name _ _ hma]
          rw [modifyAll_structure f hsp rest c1 c' h, h1]

theorem shape_updateState (bp : Bipole) (va vc dt : ℚ) :
    bipoleShape
      { bp with behaviour := bp.behaviour.updateState va vc dt } =
      bipoleShape bp := by
  cases bp with
  | mk a c b => cases b <;> rfl

theorem shape_updateOperatingPoint (env : NumEnv) (bp : Bipole)
    (va vc cur : ℚ) :
    bipoleShape
      { bp with behaviour := bp.behaviour.updateOperatingPoint env va vc cur } =
      bipoleShape bp := by
  cases bp with
  | mk a c b => cases b <;> rfl

theorem shape_resetOperatingPoint (bp : Bipole) :
    bipoleShape { bp with behaviour := bp.behaviour.resetOperatingPoint } =
      bipoleShape bp := by
  cases bp with
  | mk a c b => cases b <;> rfl

theorem updateNonlinearOp_structure (env : NumEnv) (c : Circuit) (sol : Vec)
    (c' : Circuit) (h : updateNonlinearOp env c sol = .ok c') :
    structureOf c' = structureOf c :=
  modifyAll_structure _ (fun bp => shape_updateOperatingPoint env bp _ _ _) _ _ _ h

theorem resetNonlinearOp_structure (c : Circuit) (c' : Circuit)
    (h : resetNonlinearOp c = .ok c') : structureOf c' = structureOf c :=
  modifyAll_structure _ (fun bp => shape_resetOperatingPoint bp) _ _ _ h

theorem updateDynamics_structure (c : Circuit) (sol : Vec) (dt : ℚ)
    (c' : Circuit) (h : updateDynamics c sol dt = .ok c') :
    structureOf c' = structureOf c :=
  modifyAll_structure _ (fun bp => shape_updateState bp _ _ _) _ _ _ h

theorem iterOnce_structure (env : NumEnv) (lsolve : LinSolver)
    (vidx : List (String × Nat)) (unknowns : Nat) (dt t : ℚ) (st st' : IterState)
    (h : iterOnce env lsolve vidx unknowns dt t st = .ok st') :
    structureOf st'.1 = structureOf st.1 := by
  unfold iterOnce at h
  split at h
  · cases h
  · split at h
    · cases h
    · split at h
      · cases h
      · rename_i x2 A1 b1 hfill x1 sol hsol x0 c2 hupd
        cases h
        exact updateNonlinearOp_structure env st.1 sol c2 hupd

theorem iterN_structure (env : NumEnv) (lsolve : LinSolver)
    (vidx : List (String × Nat)) (unknowns : Nat) (dt t : ℚ) :
    ∀ (n : Nat) (st st' : IterState),
      iterN env lsolve vidx unknowns dt t n st = .ok st' →
      structureOf st'.1 = structureOf st.1
  | 0, st, st', h => by
      simp only [iterN] at h
      cases h
      rfl
  | n + 1, st, st', h => by
      simp only [iterN] at h
      cases ho : iterOnce env lsolve vidx unknowns dt t st with
      | error e => rw [ho] at h; cases h
      | ok st1 =>
          rw [ho] at h
          rw [iterN_structure env lsolve vidx unknowns dt t n st1 st' h]
          exact iterOnce_structure env lsolve vidx unknowns dt t st st1 ho

theorem solveNonlinear_structure (env : NumEnv) (lsolve : LinSolver)
    (vidx : List (String × Nat)) (unknowns : Nat) (c : Circuit) (dt t : ℚ)
    (A : Mat) (b : Vec) (n : Nat) (st' : IterState)
    (h : solveNonlinear env lsolve vidx unknowns c dt t A b n = .ok st') :
    structureOf st'.1 = structureOf c := by
  unfold solveNonlinear at h
  cases hr : resetNonlinearOp c with
  | error e => rw [hr] at h; cases h
  | ok c0 =>
      rw [hr] at h
      rw [iterN_structure env lsolve vidx unknowns dt t n _ st' h]
      exact resetNonlinearOp_structure c c0 hr

theorem simStep_structure (env : NumEnv) (lsolve : LinSolver)
    (vidx : List (String × Nat)) (unknowns : Nat) (dt : ℚ) (st st' : SimState)
    (s : Nat) (h : simStep env lsolve vidx unknowns dt st s = .ok st') :
    structureOf st'.1 = structureOf st.1 := by
  unfold simStep at h
  split at h
  · cases h
  · split at h
    · cases h
    · split at h
      · cases h
      · rename_i x2 c1 A1 b1 sol hsolve x1 cur hcur x0 c2 hdyn
        cases h
        rw [updateDynamics_structure c1 sol dt c2 hdyn]
        exact solveNonlinear_structure env lsolve vidx unknowns st.1 dt _ _ _ _ _
          hsolve

theorem simLoop_structure (env : NumEnv) (lsolve : LinSolver)
    (vidx : List (String × Nat)) (unknowns : Nat) (dt : ℚ) :
    ∀ (k s : Nat) (st st' : SimState),
      simLoop env lsolve vidx unknowns dt k s st = .ok st' →
      structureOf st'.1 = structureOf st.1
  | 0, s, st, st', h => by
      simp only [simLoop] at h
      cases h
      rfl
  | k + 1, s, st, st', h => by
      simp only [simLoop] at h
      cases hs : simStep env lsolve vidx unknowns dt st s with
      | error e => rw [hs] at h; cases h
      | ok st1 =>
          rw [hs] at h
          rw [simLoop_structure env lsolve vidx unknowns dt k (s + 1) st1 st' h]
          exact simStep_structure env lsolve vidx unknowns dt st st1 s hs

theorem modifyAll_find (f : Bipole → Bipole) :
    ∀ (names : List String) (c c' : Circuit), names.Nodup →
      modifyAll f c names = .ok c' →
      ∀ nm bp, findAssoc c.bipoles nm = some bp →
        findAssoc c'.bipoles nm = some (if nm ∈ names then f bp else bp)
  | [], c, c', _, h => by
      simp only [modifyAll] at h
      cases h
      intro nm bp hf
      simpa using hf
  | name :: rest, c, c', hnd, h => by
      intro nm bp hf
      simp only [modifyAll] at h
      cases hm : modifyBipole c name f with
      | error e => rw [hm] at h; cases h
      | ok c1 =>
          rw [hm] at h
          have hnotin : name ∉ rest := (List.nodup_cons.mp hnd).1
          have hndr : rest.Nodup := (List.nodup_cons.mp hnd).2
          unfold modifyBipole at hm
          cases hma : modifyAssoc f name c.bipoles with
          | none => rw [hma] at hm; cases hm
          | some bs =>
              rw [hma] at hm
              cases hm
              by_cases hnm : nm = name
              · subst hnm
                have h1 : findAssoc bs nm = some (f bp) :=
                  modifyAssoc_find_self f nm c.bipoles bs hma bp hf
                have h2 := modifyAll_find f rest _ c' hndr h nm (f bp) h1
                rw [if_neg hnotin] at h2
                rw [h2, if_pos (List.mem_cons_self nm rest)]
              · have h1 : findAssoc bs nm = some bp := by
                  rw [modifyAssoc_find_other f name c.bipoles bs hma nm hnm]
                  exact hf
                have h2 := modifyAll_find f rest _ c' hndr h nm bp h1
                rw [h2]
                by_cases hr : nm ∈ rest
                · rw [if_pos hr, if_pos (List.mem_cons_of_mem name hr)]
                · rw [if_neg hr, if_neg (by
                    intro hc
                    rcases List.mem_cons.mp hc with hc1 | hc2
                    · exact hnm hc1
                    · exact hr hc2)]

theorem list_mem_set {α : Type} (l : List α) (s : Nat) (a x : α)
    (h : x ∈ l.set s a) : x ∈ l ∨ x = a := by
  induction l generalizing s with
  | nil => simp [List.set] at h
  | cons y rest ih =>
      cases s with
      | zero =>
          simp only [List.set] at h
          rcases List.mem_cons.mp h with h1 | h2
          · right; exact h1
          · left; exact List.mem_cons_of_mem y h2
      | succ s' =>
          simp only [List.set] at h
          rcases List.mem_cons.mp h with h1 | h2
          · left; rw [h1]; exact List.mem_cons_self y rest
          · rcases ih s' h2 with h3 | h4
            · left; exact List.mem_cons_of_mem y h3
            · right; exact h4

theorem recordCurrents_shape (env : NumEnv) (vidx : List (String × Nat))
    (c : Circuit) (dt t : ℚ) (sol : Vec) (s : Nat) :
    ∀ (entries out' : List (String × List ℚ)),
      recordCurrents env vidx c dt t sol s entries = .ok out' →
      out'.map Prod.fst = entries.map Prod.fst ∧
      ∀ n, (∀ p ∈ entries, (Prod.snd p).length = n) →
        ∀ q ∈ out', (Prod.snd q).length = n
  | [], out', h => by
      simp only [recordCurrents] at h
      cases h
      simp
  | (name, l) :: rest, out', h => by
      simp only [recordCurrents] at h
      split at h
      · cases h
      · rename_i l' hl'
        split at h
        · cases h
        · rename_i rest' hrest
          cases h
          obtain ⟨hmap, hlen⟩ := recordCurrents_shape env vidx c dt t sol s
            rest rest' hrest
          constructor
          · simp [hmap]
          · intro n hn q hq
            rcases List.mem_cons.mp hq with h1 | h2
            · subst h1
              have hllen : l.length = n := hn (name, l) (List.mem_cons_self _ _)
              have : l'.length = l.length := by
                split at hl'
                · cases hl'; simp
                · split at hl'
                  · cases hl'
                  · split at hl'
                    · cases hl'; simp
                    · cases hl'; rfl
              simpa [this] using hllen
            · exact hlen n (fun p hp => hn p (List.mem_cons_of_mem _ hp)) q h2

theorem recordVoltages_map_fst (gid : Nat) (sol : Vec) (s : Nat)
    (entries : List (Nat × List ℚ)) :
    (recordVoltages gid sol s entries).map Prod.fst = entries.map Prod.fst := by
  induction entries with
  | nil => rfl
  | cons p rest ih => simp [recordVoltages] at ih ⊢

theorem recordVoltages_lengths (gid : Nat) (sol : Vec) (s : Nat)
    (entries : List (Nat × List ℚ)) (n : Nat)
    (hn : ∀ p ∈ entries, (Prod.snd p).length = n) :
    ∀ q ∈ recordVoltages gid sol s entries, (Prod.snd q).length = n := by
  intro q hq
  unfold recordVoltages at hq
  rcases List.mem_map.mp hq with ⟨p, hp, hpq⟩
  cases hpq
  simpa using hn p hp

theorem findVoltSeq_recordVoltages (gid : Nat) (sol : Vec) (s : Nat) (nd : Nat) :
    ∀ entries : List (Nat × List ℚ),
      findVoltSeq (recordVoltages gid sol s entries) nd =
        (findVoltSeq entries nd).map (fun l => l.set s (sol nd - sol gid))
  | [] => rfl
  | (m, l) :: rest => by
      by_cases hm : m = nd
      · subst hm
        simp [recordVoltages, findVoltSeq]
      · simp only [recordVoltages, findVoltSeq, if_neg hm]
        exact findVoltSeq_recordVoltages gid sol s nd rest

theorem findVoltSeq_init (n : Nat) (g : Nat) :
    ∀ nds : List Nat, g ∈ nds →
      findVoltSeq (nds.map (fun nd => (nd, List.replicate n (0:ℚ)))) g =
        some (List.replicate n 0)
  | [], hg => by cases hg
  | nd :: rest, hg => by
      by_cases hm : nd = g
      · simp [findVoltSeq, hm]
      · rcases List.mem_cons.mp hg with h1 | h2
        · exact absurd h1.symm hm
        · simp only [List.map, findVoltSeq, if_neg hm]
          exact findVoltSeq_init n g rest h2

theorem findVoltSeq_isSome_of_map_fst {e1 e2 : List (Nat × List ℚ)}
    (hmap : e2.map Prod.fst = e1.map Prod.fst) (nd : Nat) :
    (findVoltSeq e2 nd).isSome = (findVoltSeq e1 nd).isSome := by
  induction e1 generalizing e2 with
  | nil =>
      cases e2 with
      | nil => rfl
      | cons q r => simp at hmap
  | cons p r1 ih =>
      cases e2 with
      | nil => simp at hmap
      | cons q r2 =>
          simp only [List.map, List.cons.injEq] at hmap
          obtain ⟨hq, hr⟩ := hmap
          simp only [findVoltSeq]
          rw [hq]
          by_cases hm : p.1 = nd
          · rw [(show q = (q.1, q.2) from rfl)]
            rw [(show p = (p.1, p.2) from rfl)]
            simp [findVoltSeq, hq, hm]
          · rw [(show q = (q.1, q.2) from rfl)]
            rw [(show p = (p.1, p.2) from rfl)]
            simp only [findVoltSeq, hq, if_neg hm]
            exact ih hr

theorem simLoop_inv (env : NumEnv) (lsolve : LinSolver)
    (vidx : List (String × Nat)) (unknowns : Nat) (dt : ℚ)
    (P : SimState → Prop)
    (hstep : ∀ st s st', simStep env lsolve vidx unknowns dt st s = .ok st' →
      P st → P st') :
    ∀ (k s : Nat) (st st' : SimState),
      simLoop env lsolve vidx unknowns dt k s st = .ok st' → P st → P st'
  | 0, s, st, st', h => by
      simp only [simLoop] at h
      cases h
      exact id
  | k + 1, s, st, st', h => by
      intro hP
      simp only [simLoop] at h
      cases hs : simStep env lsolve vidx unknowns dt st s with
      | error e => rw [hs] at h; cases h
      | ok st1 =>
          rw [hs] at h
          exact simLoop_inv env lsolve vidx unknowns dt P hstep k (s + 1) st1
            st' h (hstep st s st1 hs hP)

theorem recordCurrents_find (env : NumEnv) (vidx : List (String × Nat))
    (c : Circuit) (dt t : ℚ) (sol : Vec) (s : Nat) :
    ∀ (entries cur' : List (String × List ℚ)),
      recordCurrents env vidx c dt t sol s entries = .ok cur' →
      (entries.map Prod.fst).Nodup →
      ∀ name l, (name, l) ∈ entries →
        (∀ k, lookupIdx vidx name = some k →
          findCurrSeq cur' name = some (l.set s (sol k))) ∧
        (lookupIdx vidx name = none →
          ∀ bp, findBipole c name = some bp →
            (∀ g i, bp.behaviour.linearCompanion env dt t =
                .conduttanceCurrentSource g i →
              findCurrSeq cur' name =
                some (l.set s (g * (sol bp.anodeId - sol bp.catodeId) + i))) ∧
            (∀ v, bp.behaviour.linearCompanion env dt t = .voltageSource v →
              findCurrSeq cur' name = some l))
  | [], cur', h, _, name, l, hmem => by cases hmem
  | (m, l0) :: rest, cur', h, hnd, name, l, hmem => by
      simp only [recordCurrents] at h
      split at h
      · cases h
      · rename_i l' hl'
        split at h
        · cases h
        · rename_i rest' hrest
          cases h
          rcases List.mem_cons.mp hmem with hhead | htail
          · injection hhead with h1 h2
            subst h1
            subst h2
            have hfind : findCurrSeq ((name, l') :: rest') name = some l' := by
              simp [findCurrSeq]
            constructor
            · intro k hk
              rw [hk] at hl'
              cases hl'
              exact hfind
            · intro hnone bp hbp
              rw [hnone] at hl'
              rw [hbp] at hl'
              have hl2 : (match bp.behaviour.linearCompanion env dt t with
                  | Model.conduttanceCurrentSource g i =>
                      (Except.ok (l.set s
                        (g * (sol bp.anodeId - sol bp.catodeId) + i)) :
                        Except Panic (List ℚ))
                  | Model.voltageSource _ => Except.ok l) = Except.ok l' := hl'
              constructor
              · intro g i hcc
                rw [hcc] at hl2
                cases hl2
                exact hfind
              · intro v hv
                rw [hv] at hl2
                cases hl2
                exact hfind
          · have hne : m ≠ name := by
              intro hc
              subst hc
              have : m ∈ rest.map Prod.fst :=
                List.mem_map.mpr ⟨(m, l), htail, rfl⟩
              exact (List.nodup_cons.mp hnd).1 this
            have ih := recordCurrents_find env vidx c dt t sol s rest rest'
              hrest (List.nodup_cons.mp hnd).2 name l htail
            have hstep : findCurrSeq ((m, l') :: rest') name =
                findCurrSeq rest' name := by
              simp [findCurrSeq, hne]
            constructor
            · intro k hk
              rw [hstep]
              exact ih.1 k hk
            · intro hnone bp hbp
              obtain ⟨hcc, hv⟩ := ih.2 hnone bp hbp
              exact ⟨fun g i hg => by rw [hstep]; exact hcc g i hg,
                fun v hvv => by rw [hstep]; exact hv v hvv⟩

theorem simStep_parts (env : NumEnv) (lsolve : LinSolver)
    (vidx : List (String × Nat)) (unknowns : Nat) (dt : ℚ) (st st' : SimState)
    (s : Nat) (h : simStep env lsolve vidx unknowns dt st s = .ok st') :
    ∃ c1 A1 b1 sol cur2,
      solveNonlinear env lsolve vidx unknowns st.1 dt ((s : ℚ) * dt) st.2.1
          st.2.2.1 (simNumIterations st.1) = .ok (c1, A1, b1, sol) ∧
      recordCurrents env vidx c1 dt ((s : ℚ) * dt) sol s st.2.2.2.currents =
          .ok cur2 ∧
      updateDynamics c1 sol dt = .ok st'.1 ∧
      st'.2.1 = zeroM ∧ st'.2.2.1 = zeroV ∧
      st'.2.2.2 = ⟨cur2, recordVoltages c1.groundId sol s st.2.2.2.nodeVoltages⟩ := by
  unfold simStep at h
  split at h
  · cases h
  · split at h
    · cases h
    · split at h
      · cases h
      · rename_i x2 c1 A1 b1 sol hsolve x1 cur hcur x0 c2 hdyn
        cases h
        exact ⟨c1, A1, b1, sol, cur, hsolve, hcur, hdyn, rfl, rfl, rfl⟩

/-! ### Claim theorems -/

/-- Claim C5: the diode companion is `ConductanceCurrent{g, i* − g·v*}` with
`g = (Is/Vt)·exp(v*/Vt)`; `update_operating_point` is the large-signal form
`v* ← v_a − v_c`, `i* ← Is·(exp(v*/Vt) − 1)`; `reset_operating_point` is the
warm start `v* = 0.9`, `i* = 1.08`. -/
theorem claim_C5_diode_model (env : NumEnv) (s vt i v dt t va vc cur : ℚ) :
    Behaviour.linearCompanion env (.diode s vt i v) dt t =
      .conduttanceCurrentSource (s / vt * env.rexp (v / vt))
        (i - s / vt * env.rexp (v / vt) * v) ∧
    Behaviour.updateOperatingPoint env (.diode s vt i v) va vc cur =
      .diode s vt (s * (env.rexp ((va - vc) / vt) - 1)) (va - vc) ∧
    Behaviour.resetOperatingPoint (.diode s vt i v) = .diode s vt 1.08 0.9 :=
  ⟨rfl, rfl, rfl⟩

/-- Claim C2: the stamping rules.  A `ConductanceCurrent{g,i}` companion of
an element with anode `a` and cathode `c` adds `b[a] -= i`, `b[c] += i`,
`A[a,a] += g`, `A[c,c] += g`, `A[a,c] -= g`, `A[c,a] -= g`; a `Voltage{v}`
companion with auxiliary index `k` adds the four unit entries and assigns
(does not accumulate) `b[k] = v`; `fill` folds exactly these stamps over the
elements. -/
theorem claim_C2_stamp_rules (A : Mat) (b : Vec) (a c k : Nat) (g i v : ℚ)
    (hac : a ≠ c) (hak : a ≠ k) (hck : c ≠ k) :
    ((stampCC A b a c g i).2 a = b a - i) ∧
    ((stampCC A b a c g i).2 c = b c + i) ∧
    (∀ j, j ≠ a → j ≠ c → (stampCC A b a c g i).2 j = b j) ∧
    ((stampCC A b a c g i).1 a a = A a a + g) ∧
    ((stampCC A b a c g i).1 c c = A c c + g) ∧
    ((stampCC A b a c g i).1 a c = A a c - g) ∧
    ((stampCC A b a c g i).1 c a = A c a - g) ∧
    ((stampV A b a c k v).1 a k = A a k + 1) ∧
    ((stampV A b a c k v).1 c k = A c k - 1) ∧
    ((stampV A b a c k v).1 k a = A k a + 1) ∧
    ((stampV A b a c k v).1 k c = A k c - 1) ∧
    ((stampV A b a c k v).2 k = v) ∧
    (∀ j, j ≠ k → (stampV A b a c k v).2 j = b j) ∧
    (∀ (env : NumEnv) (vidx : List (String × Nat)) (dt t : ℚ) (name : String)
      (bp : Bipole),
      (bp.behaviour.linearCompanion env dt t = .conduttanceCurrentSource g i →
        stampBipole env vidx dt t name bp (A, b) =
          .ok (stampCC A b bp.anodeId bp.catodeId g i)) ∧
      (bp.behaviour.linearCompanion env dt t = .voltageSource v →
        lookupIdx vidx name = some k →
        stampBipole env vidx dt t name bp (A, b) =
          .ok (stampV A b bp.anodeId bp.catodeId k v))) ∧
    (∀ (env : NumEnv) (vidx : List (String × Nat)) (dt t : ℚ) (name : String)
      (bp : Bipole) (rest : List (String × Bipole)) (Ab : Mat × Vec),
      fill env vidx dt t ((name, bp) :: rest) Ab =
        (stampBipole env vidx dt t name bp Ab).bind (fill env vidx dt t rest)) := by
  have hca : c ≠ a := Ne.symm hac
  have hka : k ≠ a := Ne.symm hak
  have hkc : k ≠ c := Ne.symm hck
  refine ⟨?_, ?_, ?_, ?_, ?_, ?_, ?_, ?_, ?_, ?_, ?_, ?_, ?_, ?_, ?_⟩
  · simp [stampCC, hac, hca]
  · simp [stampCC, hac, hca]
  · intro j hja hjc
    simp [stampCC, hja, hjc]
  · simp [stampCC, hac, hca]
  · simp [stampCC, hac, hca]
  · simp [stampCC, hac, hca]
  · simp [stampCC, hac, hca]
  · simp [stampV, hak, hka, hck, hkc, hac, hca]
  · simp [stampV, hak, hka, hck, hkc, hac, hca]
  · simp [stampV, hak, hka, hck, hkc, hac, hca]
  · simp [stampV, hak, hka, hck, hkc, hac, hca]
  · simp [stampV]
  · intro j hjk
    simp [stampV, hjk]
  · intro env vidx dt t name bp
    constructor
    · intro hcc
      simp [stampBipole, hcc]
    · intro hv hk
      simp [stampBipole, hv, hk]
  · intro env vidx dt t name bp rest Ab
    cases hs : stampBipole env vidx dt t name bp Ab with
    | error e => simp [fill, hs, Except.bind]
    | ok Ab' => simp [fill, hs, Except.bind]

/-- Witness for C2 at `a = 0`, `c = 1`, `k = 2`, `g = 2`, `i = 3`, `v = 5`
on the zero system. -/
theorem claim_C2_stamp_rules_w :
    (stampCC zeroM zeroV 0 1 2 3).2 0 = zeroV 0 - 3 :=
  (claim_C2_stamp_rules zeroM zeroV 0 1 2 2 3 5 (by decide) (by decide)
    (by decide)).1

/-- Counterexample to claim C7: `add_bipole` has no duplicate-name check.
Adding a second element named "R" is accepted (the function returns a
circuit, there is no error path) and it silently replaces the stored
element, so the circuit state changes. -/
theorem claim_C7_counterexample :
    findBipole
        (((Circuit.new 0).addBipole envQ (.resistor 1) 0 1 "R").addBipole envQ
          (.currentSource 2) 0 1 "R") "R" =
      some ⟨0, 1, .currentSource 2⟩ ∧
    ((Circuit.new 0).addBipole envQ (.resistor 1) 0 1 "R").addBipole envQ
        (.currentSource 2) 0 1 "R" ≠
      (Circuit.new 0).addBipole envQ (.resistor 1) 0 1 "R" := by
  constructor
  · simp [findBipole, findAssoc, Circuit.addBipole, Circuit.new, insertBipole,
      insertNode, insertName, Behaviour.isDynamic, Behaviour.isNonlinear,
      Behaviour.linearCompanion]
  · intro h
    have h2 := congrArg (fun c => findBipole c "R") h
    simp [findBipole, findAssoc, Circuit.addBipole, Circuit.new, insertBipole,
      insertNode, insertName, Behaviour.isDynamic, Behaviour.isNonlinear,
      Behaviour.linearCompanion] at h2

/-- Claim C7 as amended: `add_bipole` never rejects an insertion; inserting
under an existing name silently replaces the stored element (the `HashMap`
insert), leaving the new behaviour and terminals under that name. -/
theorem claim_C7_amended (env : NumEnv) (c : Circuit) (behaviour : Behaviour)
    (anodeId catodeId : Nat) (name : String) :
    findBipole (c.addBipole env behaviour anodeId catodeId name) name =
      some ⟨anodeId, catodeId, behaviour⟩ := by
  simp only [findBipole, Circuit.addBipole]
  exact findAssoc_insertBipole_self c.bipoles name _

/-- Counterexample to claim C1: for the single-current-source circuit the
assembled matrix is identically zero (hence unfactorable by any solver),
and `simulate` with a solver that reports failure ends in the panic marker —
the source `unwrap`s the solver result, it does not surface a typed
`SingularSystem` error (no such error value exists in the code). -/
theorem claim_C1_counterexample :
    Circuit.simulate envQ lsNone cCur 1 1 = .error .unwrapNone ∧
    (fill envQ (mkVidx cCur) 1 0 cCur.bipoles (zeroM, zeroV)).toOption.map
        (fun p => (p.1 0 0, p.1 0 1, p.1 1 0, p.1 1 1)) =
      some (0, 0, 0, 0) := by
  constructor
  · have h1 : nSteps 1 1 = 1 := by simp [nSteps]
    simp [Circuit.simulate, h1, mkVidx, mkUnknowns, simLoop, simStep,
      solveNonlinear, resetNonlinearOp, modifyAll, simNumIterations, iterN,
      iterOnce, fill, stampBipole, stampCC, Behaviour.linearCompanion, cCur,
      Circuit.addBipole, Circuit.new, insertBipole, insertNode, insertName,
      Behaviour.isDynamic, Behaviour.isNonlinear, buildVidx, initOutput, lsNone]
  · simp [fill, stampBipole, stampCC, Behaviour.linearCompanion, cCur, mkVidx,
      Circuit.addBipole, Circuit.new, insertBipole, insertNode, insertName,
      Behaviour.isDynamic, Behaviour.isNonlinear, buildVidx, Except.toOption,
      zeroM, zeroV]

/-- Claim C1 as amended: when the linear solver cannot factor the system at
an inner iteration, `solve_nonlinear` panics (models the unconditional
`unwrap` of the solver result), and `simulate` propagates that panic for the
first timestep; no typed `SingularSystem` error is surfaced. -/
theorem claim_C1_amended (env : NumEnv) (lsolve : LinSolver)
    (vidx : List (String × Nat)) (unknowns : Nat) (c c0 : Circuit)
    (dt t T : ℚ) (A : Mat) (b : Vec) (A1 : Mat) (b1 : Vec) (n : Nat)
    (e : Panic) :
    (resetNonlinearOp c = .ok c0 →
      fill env vidx dt t c0.bipoles (zeroM, zeroV) = .ok (A1, b1) →
      lsolve unknowns A1 b1 = none →
      solveNonlinear env lsolve vidx unknowns c dt t A b (n + 1) =
        .error .unwrapNone) ∧
    (1 ≤ nSteps T dt →
      solveNonlinear env lsolve (mkVidx c) (mkUnknowns c) c dt
          (((0 : Nat) : ℚ) * dt) zeroM zeroV (simNumIterations c) = .error e →
      Circuit.simulate env lsolve c T dt = .error e) := by
  constructor
  · intro hr hf hs
    have hone : iterOnce env lsolve vidx unknowns dt t (c0, A, b, zeroV) =
        .error .unwrapNone := by
      simp [iterOnce, hf, hs]
    simp [solveNonlinear, hr, iterN, hone]
  · intro hn hsolve
    obtain ⟨k, hk⟩ : ∃ k, nSteps T dt = k + 1 :=
      ⟨nSteps T dt - 1, by omega⟩
    unfold Circuit.simulate
    rw [hk]
    simp only [simLoop]
    have hsolve0 : solveNonlinear env lsolve (mkVidx c) (mkUnknowns c) c dt 0
        zeroM zeroV (simNumIterations c) = .error e := by
      simpa using hsolve
    have hstep : simStep env lsolve (mkVidx c) (mkUnknowns c) dt
        (c, zeroM, zeroV, initOutput c (k + 1)) 0 = .error e := by
      simp [simStep, hsolve0]
    rw [hstep]

/-- Witness for the amended C1 at the concrete singular circuit. -/
theorem claim_C1_amended_w :
    Circuit.simulate envQ lsNone cCur 1 1 = .error .unwrapNone := by
  refine (claim_C1_amended envQ lsNone (mkVidx cCur) (mkUnknowns cCur) cCur
      cCur 1 0 1 zeroM zeroV zeroM zeroV 0 .unwrapNone).2 ?_ ?_
  · simp [nSteps]
  · simp [solveNonlinear, resetNonlinearOp, modifyAll, simNumIterations, iterN,
      iterOnce, fill, stampBipole, stampCC, Behaviour.linearCompanion, cCur,
      Circuit.addBipole, Circuit.new, insertBipole, insertNode, insertName,
      Behaviour.isDynamic, Behaviour.isNonlinear, mkVidx, buildVidx, lsNone]

/-- Claim C3: `solve_nonlinear` resets the operating point of every
nonlinear element exactly once before the first inner iteration; the
iteration count used by `simulate` is 30 when a nonlinear element is
present and 1 otherwise; each iteration fills the cleared system, solves
it, and updates the operating point of every nonlinear element with
`x[a]`, `x[c]`; the state of the last iteration (carrying its `x`) is
returned. -/
theorem claim_C3_newton (env : NumEnv) (lsolve : LinSolver)
    (vidx : List (String × Nat)) (unknowns : Nat) (c : Circuit) (dt t : ℚ)
    (A : Mat) (b : Vec) (n : Nat) (st : IterState) (sol : Vec) (c' : Circuit) :
    (solveNonlinear env lsolve vidx unknowns c dt t A b n =
      (resetNonlinearOp c).bind
        (fun c0 => iterN env lsolve vidx unknowns dt t n (c0, A, b, zeroV))) ∧
    (iterN env lsolve vidx unknowns dt t 0 st = .ok st) ∧
    (iterN env lsolve vidx unknowns dt t (n + 1) st =
      (iterOnce env lsolve vidx unknowns dt t st).bind
        (iterN env lsolve vidx unknowns dt t n)) ∧
    (iterOnce env lsolve vidx unknowns dt t st =
      (fill env vidx dt t st.1.bipoles (zeroM, zeroV)).bind
        (fun Ab =>
          match lsolve unknowns Ab.1 Ab.2 with
          | none => .error .unwrapNone
          | some x =>
              (updateNonlinearOp env st.1 x).map
                (fun c2 => (c2, Ab.1, Ab.2, x)))) ∧
    (c.nonlinearBipoles ≠ [] → simNumIterations c = 30) ∧
    (c.nonlinearBipoles = [] → simNumIterations c = 1) ∧
    (c.nonlinearBipoles.Nodup → resetNonlinearOp c = .ok c' →
      ∀ nm bp, findBipole c nm = some bp →
        findBipole c' nm =
          some (if nm ∈ c.nonlinearBipoles
            then { bp with behaviour := bp.behaviour.resetOperatingPoint }
            else bp)) ∧
    (c.nonlinearBipoles.Nodup → updateNonlinearOp env c sol = .ok c' →
      ∀ nm bp, findBipole c nm = some bp →
        findBipole c' nm =
          some (if nm ∈ c.nonlinearBipoles
            then { bp with behaviour :=
              (bp.behaviour.updateOperatingPoint env (sol bp.anodeId)
                (sol bp.catodeId) 0) }
            else bp)) := by
  refine ⟨?_, rfl, ?_, ?_, ?_, ?_, ?_, ?_⟩
  · cases hr : resetNonlinearOp c with
    | error e => simp [solveNonlinear, hr, Except.bind]
    | ok c0 => simp [solveNonlinear, hr, Except.bind]
  · cases ho : iterOnce env lsolve vidx unknowns dt t st with
    | error e => simp [iterN, ho, Except.bind]
    | ok st1 => simp [iterN, ho, Except.bind]
  · cases hf : fill env vidx dt t st.1.bipoles (zeroM, zeroV) with
    | error e => simp [iterOnce, hf, Except.bind]
    | ok Ab =>
        obtain ⟨A1, b1⟩ := Ab
        cases hs : lsolve unknowns A1 b1 with
        | none => simp [iterOnce, hf, hs, Except.bind]
        | some x =>
            cases hu : updateNonlinearOp env st.1 x with
            | error e => simp [iterOnce, hf, hs, hu, Except.bind, Except.map]
            | ok c2 => simp [iterOnce, hf, hs, hu, Except.bind, Except.map]
  · intro hne
    simp [simNumIterations, List.length_pos.mpr hne]
  · intro heq
    simp [simNumIterations, heq]
  · intro hnd hok nm bp hf
    exact modifyAll_find _ c.nonlinearBipoles c c' hnd hok nm bp hf
  · intro hnd hok nm bp hf
    exact modifyAll_find _ c.nonlinearBipoles c c' hnd hok nm bp hf

/-- Witness for C3: resetting the one-diode circuit rewrites its operating
point to the warm start, by the reset clause of the theorem. -/
theorem claim_C3_newton_w :
    findBipole ((Circuit.new 0).addBipole envQ (.diode 1 1 1.08 0.9) 1 0 "D")
        "D" =
      some (if "D" ∈ cDio.nonlinearBipoles
        then { (⟨1, 0, .diode 1 1 7 5⟩ : Bipole) with
                behaviour := (Behaviour.diode 1 1 7 5).resetOperatingPoint }
        else ⟨1, 0, .diode 1 1 7 5⟩) :=
  (claim_C3_newton envQ lsOk [] 0 cDio 1 0 zeroM zeroV 0
      (cDio, zeroM, zeroV, zeroV) zeroV
      ((Circuit.new 0).addBipole envQ (.diode 1 1 1.08 0.9) 1 0 "D")
    ).2.2.2.2.2.2.1 (by decide) (by rfl) "D" ⟨1, 0, .diode 1 1 7 5⟩ (by rfl)

/-- Counterexample to claim C4: for the one-diode circuit with initial
operating point `(v*, i*) = (5, 7)` and a solver returning the zero vector,
the companion at the state left by the previous step is
`ConductanceCurrent{7, -28}`, so the claim predicts a recorded current of
`7·(x[a]−x[c]) − 28 = -28`; the code records `1`, because the diode's
operating point was reset and re-updated by this step's Newton iterations
before the current is re-queried. -/
theorem claim_C4_counterexample :
    Circuit.simulate envQ lsOk cDio 1 1 =
      .ok ((Circuit.new 0).addBipole envQ (.diode 1 1 1 0) 1 0 "D",
        ⟨[("D", [1])], [(1, [0]), (0, [0])]⟩) ∧
    Behaviour.linearCompanion envQ (.diode 1 1 7 5) 1 (((0 : Nat) : ℚ) * 1) =
      .conduttanceCurrentSource 7 (-28) ∧
    (7 : ℚ) * (0 - 0) + (-28) = -28 ∧
    (1 : ℚ) ≠ -28 := by
  refine ⟨?_, ?_, by norm_num, by norm_num⟩
  · have h1 : nSteps 1 1 = 1 := by simp [nSteps]
    simp [Circuit.simulate, h1, mkVidx, mkUnknowns, simLoop, simStep,
      solveNonlinear, resetNonlinearOp, modifyAll, modifyBipole, modifyAssoc,
      simNumIterations, iterN, iterOnce, fill, stampBipole, stampCC,
      updateNonlinearOp, Behaviour.updateOperatingPoint,
      Behaviour.resetOperatingPoint, recordCurrents, recordVoltages,
      updateDynamics, findBipole, findAssoc, lookupIdx,
      Behaviour.linearCompanion, cDio, Circuit.addBipole, Circuit.new,
      insertBipole, insertNode, insertName, Behaviour.isDynamic,
      Behaviour.isNonlinear, buildVidx, initOutput, lsOk, envQ, zeroV, zeroM]
    norm_num
  · simp [Behaviour.linearCompanion, envQ]
    norm_num

/-- Claim C4 as amended: each step of `simulate` records outputs before
mutating any dynamic element's state — a voltage-defined element records
`x[k]`, every other element records `g·(x[a]−x[c])+i` with `(g,i)`
re-queried from the element's state at recording time (for dynamic
elements the state left by the previous step, for nonlinear elements the
operating point left by this step's Newton iterations), and only then is
`update_state` applied, to the circuit the outputs were recorded from. -/
theorem claim_C4_amended (env : NumEnv) (lsolve : LinSolver)
    (vidx : List (String × Nat)) (unknowns : Nat) (dt : ℚ) (s : Nat)
    (c : Circuit) (A : Mat) (b : Vec) (out : SimulationOutput)
    (cSolved : Circuit) (sol : Vec) (entries cur' : List (String × List ℚ))
    (name : String) (l : List ℚ) (bp : Bipole) (g i : ℚ) (k : Nat) :
    (simStep env lsolve vidx unknowns dt (c, A, b, out) s =
      (solveNonlinear env lsolve vidx unknowns c dt ((s : ℚ) * dt) A b
          (simNumIterations c)).bind
        (fun r =>
          (recordCurrents env vidx r.1 dt ((s : ℚ) * dt) r.2.2.2 s
              out.currents).bind
            (fun cs =>
              (updateDynamics r.1 r.2.2.2 dt).map
                (fun c2 =>
                  (c2, zeroM, zeroV,
                    ⟨cs, recordVoltages r.1.groundId r.2.2.2 s
                      out.nodeVoltages⟩))))) ∧
    (recordCurrents env vidx cSolved dt ((s : ℚ) * dt) sol s entries =
        .ok cur' →
      (entries.map Prod.fst).Nodup → (name, l) ∈ entries →
      (lookupIdx vidx name = some k →
        findCurrSeq cur' name = some (l.set s (sol k))) ∧
      (lookupIdx vidx name = none → findBipole cSolved name = some bp →
        bp.behaviour.linearCompanion env dt ((s : ℚ) * dt) =
          .conduttanceCurrentSource g i →
        findCurrSeq cur' name =
          some (l.set s (g * (sol bp.anodeId - sol bp.catodeId) + i)))) := by
  constructor
  · cases hr : solveNonlinear env lsolve vidx unknowns c dt ((s : ℚ) * dt) A b
        (simNumIterations c) with
    | error e => simp [simStep, hr, Except.bind]
    | ok r =>
        obtain ⟨c1, A1, b1, sol1⟩ := r
        cases hc : recordCurrents env vidx c1 dt ((s : ℚ) * dt) sol1 s
            out.currents with
        | error e => simp [simStep, hr, hc, Except.bind]
        | ok cs =>
            cases hd : updateDynamics c1 sol1 dt with
            | error e => simp [simStep, hr, hc, hd, Except.bind, Except.map]
            | ok c2 => simp [simStep, hr, hc, hd, Except.bind, Except.map]
  · intro hrec hnd hmem
    have h := recordCurrents_find env vidx cSolved dt ((s : ℚ) * dt) sol s
      entries cur' hrec hnd name l hmem
    exact ⟨fun hk => h.1 k hk,
      fun hnone hbp hcc => (h.2 hnone bp hbp).1 g i hcc⟩

/-- Witness for the amended C4: recording the capacitor current re-queries
the companion at the pre-update state `(C, v_last) = (1, 3)`. -/
theorem claim_C4_amended_w :
    findCurrSeq [("C", [1 / 1 * (zeroV 1 - zeroV 0) + -3 * 1 / 1])] "C" =
      some (List.set [0] 0 (1 / 1 * (zeroV 1 - zeroV 0) + -3 * 1 / 1)) :=
  ((claim_C4_amended envQ lsOk [] 2 1 0 cCap zeroM zeroV
      ⟨[("C", [0])], []⟩ cCap zeroV [("C", [0])]
      [("C", [1 / 1 * (zeroV 1 - zeroV 0) + -3 * 1 / 1])] "C" [0]
      ⟨1, 0, .capacitor 1 3⟩ (1 / 1) (-3 * 1 / 1) 0).2
    (by rfl) (by simp) (List.mem_cons_self _ _)).2 (by rfl) (by rfl) (by rfl)

/-- Claim C6: `simulate(T, Δt)` computes `n_steps = ⌊T/Δt⌋` by truncation,
and for every `T ≥ 0`, `Δt > 0` the output carries, for every element name
and every node id, a sequence of exactly `n_steps` values; when `T < Δt`
every sequence is empty, the circuit is untouched and no linear system is
solved (the result does not depend on the solver: the step loop never
runs). -/
theorem claim_C6_output_shape (env : NumEnv) (lsolve : LinSolver)
    (c : Circuit) (T dt : ℚ) (c' : Circuit) (out : SimulationOutput)
    (hT : 0 ≤ T) (hdt : 0 < dt)
    (h : Circuit.simulate env lsolve c T dt = .ok (c', out)) :
    nSteps T dt = Int.toNat ⌊T / dt⌋ ∧
    out.currents.map Prod.fst = c.bipoles.map Prod.fst ∧
    out.nodeVoltages.map Prod.fst = c.nodes ∧
    (∀ p ∈ out.currents, (Prod.snd p).length = nSteps T dt) ∧
    (∀ p ∈ out.nodeVoltages, (Prod.snd p).length = nSteps T dt) ∧
    (T < dt → Circuit.simulate env lsolve c T dt = .ok (c, initOutput c 0)) := by
  have hP : ∀ (st : SimState) (s : Nat) (st' : SimState),
      simStep env lsolve (mkVidx c) (mkUnknowns c) dt st s = .ok st' →
      (st.2.2.2.currents.map Prod.fst = c.bipoles.map Prod.fst ∧
        st.2.2.2.nodeVoltages.map Prod.fst = c.nodes ∧
        (∀ p ∈ st.2.2.2.currents, (Prod.snd p).length = nSteps T dt) ∧
        (∀ p ∈ st.2.2.2.nodeVoltages, (Prod.snd p).length = nSteps T dt)) →
      (st'.2.2.2.currents.map Prod.fst = c.bipoles.map Prod.fst ∧
        st'.2.2.2.nodeVoltages.map Prod.fst = c.nodes ∧
        (∀ p ∈ st'.2.2.2.currents, (Prod.snd p).length = nSteps T dt) ∧
        (∀ p ∈ st'.2.2.2.nodeVoltages, (Prod.snd p).length = nSteps T dt)) := by
    intro st s st' hs hPst
    obtain ⟨c1, A1, b1, sol, cur2, hsolve, hcur, hdyn, hA, hb, hout⟩ :=
      simStep_parts env lsolve (mkVidx c) (mkUnknowns c) dt st st' s hs
    obtain ⟨hmap, hlen⟩ := recordCurrents_shape env (mkVidx c) c1 dt
      ((s : ℚ) * dt) sol s st.2.2.2.currents cur2 hcur
    rw [hout]
    refine ⟨hmap.trans hPst.1, ?_, ?_, ?_⟩
    · rw [recordVoltages_map_fst]
      exact hPst.2.1
    · exact hlen _ hPst.2.2.1
    · exact recordVoltages_lengths _ _ _ _ _ hPst.2.2.2
  have hinit :
      (initOutput c (nSteps T dt)).currents.map Prod.fst =
          c.bipoles.map Prod.fst ∧
      (initOutput c (nSteps T dt)).nodeVoltages.map Prod.fst = c.nodes ∧
      (∀ p ∈ (initOutput c (nSteps T dt)).currents,
        (Prod.snd p).length = nSteps T dt) ∧
      (∀ p ∈ (initOutput c (nSteps T dt)).nodeVoltages,
        (Prod.snd p).length = nSteps T dt) := by
    refine ⟨?_, ?_, ?_, ?_⟩
    · simp [initOutput]
    · have hfn : (Prod.fst ∘ fun nd : Nat =>
          (nd, List.replicate (nSteps T dt) (0 : ℚ))) = fun nd => nd := rfl
      simp only [initOutput, List.map_map, hfn]
      simp
    · intro p hp
      rcases List.mem_map.mp hp with ⟨q, hq, hpq⟩
      cases hpq
      simp
    · intro p hp
      rcases List.mem_map.mp hp with ⟨q, hq, hpq⟩
      cases hpq
      simp
  unfold Circuit.simulate at h
  split at h
  · cases h
  · rename_i x cf xA xb outf hl
    cases h
    have hfin := simLoop_inv env lsolve (mkVidx c) (mkUnknowns c) dt _ hP
      (nSteps T dt) 0 _ _ hl hinit
    refine ⟨rfl, hfin.1, hfin.2.1, hfin.2.2.1, hfin.2.2.2, ?_⟩
    intro hlt
    have h0 : nSteps T dt = 0 := by
      have hfl : ⌊T / dt⌋ = 0 := by
        rw [Int.floor_eq_zero_iff]
        constructor
        · exact div_nonneg hT hdt.le
        · exact (div_lt_one hdt).mpr hlt
      simp [nSteps, hfl]
    unfold Circuit.simulate
    rw [h0]
    rfl

/-- Witness for C6 at `T = 1 < Δt = 2`: the simulation returns the circuit
untouched with empty sequences and never consults the solver. -/
theorem claim_C6_output_shape_w :
    Circuit.simulate envQ lsOk cRes 1 2 = .ok (cRes, initOutput cRes 0) := by
  have hfl : ⌊(1 : ℚ) / 2⌋ = 0 := by
    rw [Int.floor_eq_zero_iff, Set.mem_Ico]
    constructor <;> norm_num
  have h0 : nSteps 1 2 = 0 := by unfold nSteps; rw [hfl]; rfl
  have h : Circuit.simulate envQ lsOk cRes 1 2 = .ok (cRes, initOutput cRes 0) := by
    unfold Circuit.simulate
    rw [h0]
    rfl
  exact (claim_C6_output_shape envQ lsOk cRes 1 2 cRes (initOutput cRes 0)
    (by norm_num) (by norm_num) h).2.2.2.2.2 (by norm_num)

/-- Claim C9: every reported node voltage is `x[n] − x[ground]`, so whenever
the ground node appears among the circuit's nodes its reported voltage
sequence exists and is identically zero at every step. -/
theorem claim_C9_ground_zero (env : NumEnv) (lsolve : LinSolver) (c : Circuit)
    (T dt : ℚ) (c' : Circuit) (out : SimulationOutput)
    (h : Circuit.simulate env lsolve c T dt = .ok (c', out)) :
    (c.groundId ∈ c.nodes →
      (findVoltSeq out.nodeVoltages c.groundId).isSome = true) ∧
    (∀ l, findVoltSeq out.nodeVoltages c.groundId = some l →
      ∀ x ∈ l, x = 0) := by
  have hP : ∀ (st : SimState) (s : Nat) (st' : SimState),
      simStep env lsolve (mkVidx c) (mkUnknowns c) dt st s = .ok st' →
      (st.1.groundId = c.groundId ∧
        st.2.2.2.nodeVoltages.map Prod.fst = c.nodes ∧
        (∀ l, findVoltSeq st.2.2.2.nodeVoltages c.groundId = some l →
          ∀ x ∈ l, x = 0)) →
      (st'.1.groundId = c.groundId ∧
        st'.2.2.2.nodeVoltages.map Prod.fst = c.nodes ∧
        (∀ l, findVoltSeq st'.2.2.2.nodeVoltages c.groundId = some l →
          ∀ x ∈ l, x = 0)) := by
    intro st s st' hs hPst
    obtain ⟨c1, A1, b1, sol, cur2, hsolve, hcur, hdyn, hA, hb, hout⟩ :=
      simStep_parts env lsolve (mkVidx c) (mkUnknowns c) dt st st' s hs
    have hgid' : st'.1.groundId = st.1.groundId :=
      congrArg CShape.gid
        (simStep_structure env lsolve (mkVidx c) (mkUnknowns c) dt st st' s hs)
    have hgid1 : c1.groundId = st.1.groundId :=
      congrArg CShape.gid
        (solveNonlinear_structure env lsolve (mkVidx c) (mkUnknowns c) st.1 dt
          _ _ _ _ _ hsolve)
    have hnv : st'.2.2.2.nodeVoltages =
        recordVoltages c1.groundId sol s st.2.2.2.nodeVoltages :=
      congrArg SimulationOutput.nodeVoltages hout
    refine ⟨hgid'.trans hPst.1, ?_, ?_⟩
    · rw [hnv, recordVoltages_map_fst]
      exact hPst.2.1
    · intro l hl x hx
      rw [hnv] at hl
      have hfv := findVoltSeq_recordVoltages c1.groundId sol s c.groundId
        st.2.2.2.nodeVoltages
      rw [hgid1, hPst.1] at hfv hl
      rw [sub_self] at hfv
      rw [hfv] at hl
      cases hprev : findVoltSeq st.2.2.2.nodeVoltages c.groundId with
      | none => rw [hprev] at hl; cases hl
      | some l0 =>
          rw [hprev] at hl
          rw [Option.map_some'] at hl
          cases hl
          rcases list_mem_set l0 s 0 x hx with hmem | hzero
          · exact hPst.2.2 l0 hprev x hmem
          · exact hzero
  have hfn : (Prod.fst ∘ fun nd : Nat =>
      (nd, List.replicate (nSteps T dt) (0 : ℚ))) = fun nd => nd := rfl
  have hinit2 : (initOutput c (nSteps T dt)).nodeVoltages.map Prod.fst =
      c.nodes := by
    simp only [initOutput, List.map_map, hfn]
    simp
  have hinit3 : ∀ l, findVoltSeq (initOutput c (nSteps T dt)).nodeVoltages
      c.groundId = some l → ∀ x ∈ l, x = 0 := by
    intro l hsome x hx
    by_cases hg : c.groundId ∈ c.nodes
    · rw [show (initOutput c (nSteps T dt)).nodeVoltages =
          c.nodes.map (fun nd => (nd, List.replicate (nSteps T dt) (0:ℚ)))
          from rfl,
        findVoltSeq_init (nSteps T dt) c.groundId c.nodes hg] at hsome
      cases hsome
      exact List.eq_of_mem_replicate hx
    · exfalso
      have hnone : ∀ nds : List Nat, c.groundId ∉ nds →
          findVoltSeq (nds.map (fun nd =>
            (nd, List.replicate (nSteps T dt) (0:ℚ)))) c.groundId = none := by
        intro nds
        induction nds with
        | nil => intro _; rfl
        | cons nd rest ih =>
            intro hnin
            have h1 : nd ≠ c.groundId := fun hc => hnin (hc ▸
              List.mem_cons_self _ _)
            simp only [List.map, findVoltSeq, if_neg h1]
            exact ih (fun hc => hnin (List.mem_cons_of_mem _ hc))
      rw [show (initOutput c (nSteps T dt)).nodeVoltages =
          c.nodes.map (fun nd => (nd, List.replicate (nSteps T dt) (0:ℚ)))
          from rfl, hnone c.nodes hg] at hsome
      cases hsome
  unfold Circuit.simulate at h
  split at h
  · cases h
  · rename_i x cf xA xb outf hl
    cases h
    have hfin := simLoop_inv env lsolve (mkVidx c) (mkUnknowns c) dt _ hP
      (nSteps T dt) 0 _ _ hl ⟨rfl, hinit2, hinit3⟩
    have h21 : out.nodeVoltages.map Prod.fst = c.nodes := hfin.2.1
    have h22 : ∀ l, findVoltSeq out.nodeVoltages c.groundId = some l →
        ∀ x ∈ l, x = 0 := hfin.2.2
    constructor
    · intro hg
      have hmap : out.nodeVoltages.map Prod.fst =
          (c.nodes.map (fun nd =>
            (nd, List.replicate (nSteps T dt) (0:ℚ)))).map Prod.fst := by
        rw [h21]
        simp only [List.map_map, hfn]
        simp
      rw [findVoltSeq_isSome_of_map_fst hmap c.groundId,
        findVoltSeq_init (nSteps T dt) c.groundId c.nodes hg]
      rfl
    · exact h22

/-- Witness for C9 at the one-resistor circuit: the ground sequence exists
(and, by the theorem, is identically zero). -/
theorem claim_C9_ground_zero_w :
    (findVoltSeq [(1, [(0 : ℚ)]), (0, [0])] cRes.groundId).isSome = true := by
  have h : Circuit.simulate envQ lsOk cRes 1 1 =
      .ok (cRes, ⟨[("R", [0])], [(1, [0]), (0, [0])]⟩) := by
    have h1 : nSteps 1 1 = 1 := by simp [nSteps]
    simp [Circuit.simulate, h1, mkVidx, mkUnknowns, simLoop, simStep,
      solveNonlinear, resetNonlinearOp, updateNonlinearOp, modifyAll,
      modifyBipole, modifyAssoc, simNumIterations, iterN, iterOnce, fill,
      stampBipole, stampCC, recordCurrents, recordVoltages, updateDynamics,
      Behaviour.updateState, Behaviour.updateOperatingPoint,
      Behaviour.resetOperatingPoint, findBipole, findAssoc, lookupIdx,
      Behaviour.linearCompanion, cRes, Circuit.addBipole, Circuit.new,
      insertBipole, insertNode, insertName, Behaviour.isDynamic,
      Behaviour.isNonlinear, buildVidx, initOutput, lsOk, envQ, zeroV, zeroM]
  exact (claim_C9_ground_zero envQ lsOk cRes 1 1 cRes
    ⟨[("R", [0])], [(1, [0]), (0, [0])]⟩ h).1 (by decide)

/-- Claim C10: `simulate` never changes the circuit's structure — element
names with their terminals and behaviour shapes (constant parameters), the
dynamic/nonlinear/voltage-defined subsets, the ground id and the node set
are all unchanged; only per-element mutable state may differ. -/
theorem claim_C10_frame (env : NumEnv) (lsolve : LinSolver) (c : Circuit)
    (T dt : ℚ) (c' : Circuit) (out : SimulationOutput)
    (h : Circuit.simulate env lsolve c T dt = .ok (c', out)) :
    structureOf c' = structureOf c := by
  unfold Circuit.simulate at h
  split at h
  · cases h
  · rename_i x cf xA xb outf hl
    cases h
    exact simLoop_structure env lsolve (mkVidx c) (mkUnknowns c) dt
      (nSteps T dt) 0 _ _ hl

/-- Witness for C10: a full simulation of the one-capacitor circuit leaves
the structure intact (the capacitor's stored voltage does change). -/
theorem claim_C10_frame_w :
    structureOf ((Circuit.new 0).addBipole envQ (.capacitor 1 0) 1 0 "C") =
      structureOf cCap := by
  have h : Circuit.simulate envQ lsOk cCap 1 1 =
      .ok ((Circuit.new 0).addBipole envQ (.capacitor 1 0) 1 0 "C",
        ⟨[("C", [-3])], [(1, [0]), (0, [0])]⟩) := by
    have h1 : nSteps 1 1 = 1 := by simp [nSteps]
    simp [Circuit.simulate, h1, mkVidx, mkUnknowns, simLoop, simStep,
      solveNonlinear, resetNonlinearOp, updateNonlinearOp, modifyAll,
      modifyBipole, modifyAssoc, simNumIterations, iterN, iterOnce, fill,
      stampBipole, stampCC, recordCurrents, recordVoltages, updateDynamics,
      Behaviour.updateState, Behaviour.updateOperatingPoint,
      Behaviour.resetOperatingPoint, findBipole, findAssoc, lookupIdx,
      Behaviour.linearCompanion, cCap, Circuit.addBipole, Circuit.new,
      insertBipole, insertNode, insertName, Behaviour.isDynamic,
      Behaviour.isNonlinear, buildVidx, initOutput, lsOk, envQ, zeroV, zeroM]
  exact claim_C10_frame envQ lsOk cCap 1 1
    ((Circuit.new 0).addBipole envQ (.capacitor 1 0) 1 0 "C")
    ⟨[("C", [-3])], [(1, [0]), (0, [0])]⟩ h
